import Mathlib

/-!
Verification development for the ACLU NSA FOIA document-harvesting pipeline
(scrape_nsa2.py, download_scrape_nsa2.py, generate_local_index.py).

The Python sources are shallowly embedded: pure string manipulation is
translated function by function; the HTML pages returned by the network are
abstracted into structures carrying exactly the fields the code inspects
(anchor attributes, card text, page-number elements); the sqlite table is a
list of rows in rowid order, where INSERT OR REPLACE removes the old row for
the key and appends the fresh one (a replaced sqlite row receives a fresh
max rowid, i.e. moves to the end); a write that raises inside the store layer
is modelled by a Boolean `ok` flag on the insert.  Python stdlib helpers used
by the code (urllib.parse.parse_qs / urlencode / quote_plus / unquote,
os.path.basename / join, str.strip, int()) are modelled directly below; the
models are byte-faithful for ASCII data (the only data this site produces);
multi-byte percent-escapes are decoded by a standard UTF-8 decoder whose
replacement-character policy for malformed input may differ from CPython's in
the number of U+FFFD emitted.
-/

/-! ## Python stdlib models: strings -/

/-- Substring test, Python's `needle in hay` for strings, on char lists. -/
def infixOfB (needle : List Char) : List Char → Bool
  | [] => needle.isEmpty
  | c :: rest => needle.isPrefixOf (c :: rest) || infixOfB needle rest

/-- Python's `needle in hay` substring containment. -/
def pyIn (needle hay : String) : Bool := infixOfB needle.data hay.data

/-- Python `s.startswith(pre)` (also the model for Lean-level prefix tests;
kept on char lists so that the kernel can evaluate it). -/
def strStartsWith (s pre : String) : Bool := pre.data.isPrefixOf s.data

/-- Python `s.endswith(suf)`. -/
def strEndsWith (s suf : String) : Bool := suf.data.isSuffixOf s.data

/-- Python `s.strip()` with no argument: whitespace removed from both ends
(ASCII whitespace; Python also strips some rarer Unicode spaces, which never
occur in this program's data). -/
def pyStrip (s : String) : String :=
  String.mk (((s.data.dropWhile Char.isWhitespace).reverse.dropWhile Char.isWhitespace).reverse)

/-- Replace every non-overlapping occurrence of `pat` (leftmost first) by
`repl`, fuel-driven so the kernel can evaluate it (each step consumes at
least one character, so the input's length is enough fuel). -/
def replaceGo (pat repl : List Char) : Nat → List Char → List Char
  | _, [] => []
  | 0, l => l
  | Nat.succ fuel, c :: rest =>
    if pat ≠ [] && pat.isPrefixOf (c :: rest) then
      repl ++ replaceGo pat repl fuel (rest.drop (pat.length - 1))
    else c :: replaceGo pat repl fuel rest

/-- Python `s.replace(pat, repl)` (non-empty `pat`; every call site's pattern
is non-empty). -/
def pyReplace (s pat repl : String) : String :=
  String.mk (replaceGo pat.data repl.data s.data.length s.data)

/-- Split on every occurrence of a non-empty separator, fuel-driven like
`replaceGo`: `[[]]` for the empty string, empty chunks kept. -/
def splitOnGo (sep : List Char) : Nat → List Char → List (List Char)
  | _, [] => [[]]
  | 0, l => [l]
  | Nat.succ fuel, c :: rest =>
    if sep ≠ [] && sep.isPrefixOf (c :: rest) then
      [] :: splitOnGo sep fuel (rest.drop (sep.length - 1))
    else
      match splitOnGo sep fuel rest with
      | [] => [[c]]
      | h :: t => (c :: h) :: t

/-- Python `s.split(sep)` for a non-empty separator. -/
def pySplit (s sep : String) : List String :=
  (splitOnGo sep.data s.data.length s.data).map String.mk

/-- The Nat denoted by a list of decimal digits. -/
def natFromDigits (l : List Char) : Nat := l.foldl (fun a c => 10 * a + (c.toNat - 48)) 0

/-- Python `s.rstrip('/')`: all trailing slashes removed. -/
def rstripSlashes (s : String) : String :=
  String.mk ((s.data.reverse.dropWhile (fun c => c = '/')).reverse)

/-- Python `int(s)`: optional surrounding whitespace, optional sign, decimal
digits.  (Underscore digit grouping, legal since Python 3.6, is not modelled:
no input of this program contains it.) -/
def pyIntParse (s : String) : Option Int :=
  let t := pyStrip s
  let core : Bool × List Char :=
    match t.data with
    | '-' :: rest => (true, rest)
    | '+' :: rest => (false, rest)
    | l => (false, l)
  if core.2 ≠ [] && core.2.all Char.isDigit then
    let n : Nat := core.2.foldl (fun a c => 10 * a + (c.toNat - 48)) 0
    some (if core.1 then -(n : Int) else (n : Int))
  else none

/-- Uppercase hex digit for a value below 16 (percent-escapes use uppercase). -/
def hexUpper (n : Nat) : Char := if n < 10 then Char.ofNat (48 + n) else Char.ofNat (55 + n)

/-- One percent-escape `%XX` for a byte. -/
def percentEncodeByte (b : Nat) : List Char := ['%', hexUpper (b / 16), hexUpper (b % 16)]

/-- UTF-8 bytes of one code point. -/
def utf8Bytes (c : Char) : List Nat :=
  let n := c.toNat
  if n < 128 then [n]
  else if n < 2048 then [192 + n / 64, 128 + n % 64]
  else if n < 65536 then [224 + n / 4096, 128 + (n / 64) % 64, 128 + n % 64]
  else [240 + n / 262144, 128 + (n / 4096) % 64, 128 + (n / 64) % 64, 128 + n % 64]

/-- Characters urllib never quotes: ASCII alphanumerics and `_.-~`. -/
def pyAlwaysSafe (c : Char) : Bool :=
  c.isAlphanum || c = '_' || c = '.' || c = '-' || c = '~'

/-- Model of `urllib.parse.quote_plus` with empty `safe`: keep the always-safe
characters, turn space into `+`, percent-encode every other byte. -/
def quote_plus (s : String) : String :=
  String.mk (s.data.flatMap fun c =>
    if pyAlwaysSafe c then [c]
    else if c = ' ' then ['+']
    else (utf8Bytes c).flatMap percentEncodeByte)

/-- Hex digit test for percent-escapes. -/
def isHexDigitCh (c : Char) : Bool :=
  c.isDigit || ('a' ≤ c && c ≤ 'f') || ('A' ≤ c && c ≤ 'F')

/-- Value of a hex digit. -/
def hexValCh (c : Char) : Nat :=
  if c.isDigit then c.toNat - 48
  else if 'a' ≤ c && c ≤ 'f' then c.toNat - 87
  else c.toNat - 55

/-- First pass of `urllib.parse.unquote`: each valid `%XX` escape becomes a
byte (`Sum.inr`), everything else stays a literal character (`Sum.inl`). -/
def percentScan : List Char → List (Sum Char Nat)
  | [] => []
  | '%' :: a :: b :: rest' =>
    if isHexDigitCh a && isHexDigitCh b then
      Sum.inr (16 * hexValCh a + hexValCh b) :: percentScan rest'
    else Sum.inl '%' :: percentScan (a :: b :: rest')
  | c :: rest => Sum.inl c :: percentScan rest

/-- The Unicode replacement character U+FFFD. -/
def replChar : Char := Char.ofNat 65533

/-- Continuation-byte test for UTF-8. -/
def isContByte (b : Nat) : Bool := 128 ≤ b && b ≤ 191

/-- Allowed second byte after a three-byte lead (excludes overlongs and
surrogates). -/
def cont2ok (b b2 : Nat) : Bool :=
  if b = 224 then 160 ≤ b2 && b2 ≤ 191
  else if b = 237 then 128 ≤ b2 && b2 ≤ 159
  else isContByte b2

/-- Allowed second byte after a four-byte lead. -/
def cont3ok (b b2 : Nat) : Bool :=
  if b = 240 then 144 ≤ b2 && b2 ≤ 191
  else if b = 244 then 128 ≤ b2 && b2 ≤ 143
  else isContByte b2

/-- Decode one UTF-8 scalar from a lead byte and the remaining bytes,
returning the character and the bytes not consumed; malformed input yields
U+FFFD for the lead byte. -/
def utf8Step (b : Nat) (rest : List Nat) : Char × List Nat :=
  if b < 128 then (Char.ofNat b, rest)
  else if 194 ≤ b && b ≤ 223 then
    match rest with
    | b2 :: rest' =>
      if isContByte b2 then (Char.ofNat ((b - 192) * 64 + (b2 - 128)), rest')
      else (replChar, rest)
    | [] => (replChar, [])
  else if 224 ≤ b && b ≤ 239 then
    match rest with
    | b2 :: b3 :: rest' =>
      if cont2ok b b2 && isContByte b3 then
        (Char.ofNat ((b - 224) * 4096 + (b2 - 128) * 64 + (b3 - 128)), rest')
      else (replChar, rest)
    | _ => (replChar, rest)
  else if 240 ≤ b && b ≤ 244 then
    match rest with
    | b2 :: b3 :: b4 :: rest' =>
      if cont3ok b b2 && isContByte b3 && isContByte b4 then
        (Char.ofNat ((b - 240) * 262144 + (b2 - 128) * 4096 + (b3 - 128) * 64 + (b4 - 128)),
          rest')
      else (replChar, rest)
    | _ => (replChar, rest)
  else (replChar, rest)

/-- Fueled driver for UTF-8 decoding (each step consumes at least the lead
byte, so the length of the input is enough fuel). -/
def utf8DecodeGo : Nat → List Nat → List Char
  | _, [] => []
  | 0, _ => []
  | Nat.succ fuel, b :: rest =>
    let s := utf8Step b rest
    s.1 :: utf8DecodeGo fuel s.2

/-- Strict UTF-8 decoding of a byte run, invalid bytes becoming U+FFFD
(CPython's `errors='replace'`; the exact count of replacement characters for a
malformed run may differ, no input of this program exercises that case). -/
def utf8DecodeBytes (l : List Nat) : List Char := utf8DecodeGo l.length l

/-- Second pass of `unquote`, with the pending percent-byte run accumulated in
reverse: literals pass through, maximal byte runs are UTF-8 decoded. -/
def decodeGo : List Nat → List (Sum Char Nat) → List Char
  | pending, [] => utf8DecodeBytes pending.reverse
  | pending, Sum.inl c :: rest => utf8DecodeBytes pending.reverse ++ c :: decodeGo [] rest
  | pending, Sum.inr b :: rest => decodeGo (b :: pending) rest

/-- Second pass of `unquote`: literals pass through, maximal percent-byte runs
are UTF-8 decoded. -/
def decodeScan (l : List (Sum Char Nat)) : List Char := decodeGo [] l

/-- Model of `urllib.parse.unquote`. -/
def unquote (s : String) : String := String.mk (decodeScan (percentScan s.data))

/-- Model of `urllib.parse.unquote_plus`: `+` becomes a space, then unquote. -/
def unquote_plus (s : String) : String := unquote (pyReplace s "+" " ")

/-- Python `s.split('=', 1)` when `'='` occurs: the parts before and after the
first `'='`; `none` when it does not occur. -/
def splitOnceEq (s : String) : Option (String × String) :=
  let pre := s.data.takeWhile (fun c => c ≠ '=')
  if pre.length = s.data.length then none
  else some (String.mk pre, String.mk (s.data.drop (pre.length + 1)))

/-- Model of `urllib.parse.parse_qsl` with default arguments: split the query
on `&`, drop empty chunks, drop chunks without `=` and chunks with an empty
value, decode names and values with `unquote_plus`. -/
def parse_qsl (qs : String) : List (String × String) :=
  (pySplit qs "&").filterMap fun nv =>
    if nv = "" then none
    else
      match splitOnceEq nv with
      | none => none
      | some (n, v) => if v = "" then none else some (unquote_plus n, unquote_plus v)

/-- Group key/value pairs into the ordered multi-dict `parse_qs` returns
(first-occurrence key order, values in encounter order). -/
def addQsPair (acc : List (String × List String)) (kv : String × String) :
    List (String × List String) :=
  if acc.any (fun e => e.1 = kv.1) then
    acc.map (fun e => if e.1 = kv.1 then (e.1, e.2 ++ [kv.2]) else e)
  else acc ++ [(kv.1, [kv.2])]

/-- Model of `urllib.parse.parse_qs` with default arguments. -/
def parse_qs (qs : String) : List (String × List String) :=
  (parse_qsl qs).foldl addQsPair []

/-- Model of `urllib.parse.urlencode(query, doseq=True)` on a `parse_qs`
result: one `k=v` chunk per value, keys and values quoted, joined by `&`. -/
def urlencode (q : List (String × List String)) : String :=
  String.intercalate "&" (q.flatMap fun kv => kv.2.map fun v =>
    quote_plus kv.1 ++ "=" ++ quote_plus v)

/-! ## Python stdlib models: URLs and paths -/

/-- Characters legal in a URL scheme after the first. -/
def schemeCharB (c : Char) : Bool := c.isAlphanum || c = '+' || c = '-' || c = '.'

/-- Whether a string begins with `scheme:` as `urllib.parse` recognises it. -/
def hasUrlScheme (s : String) : Bool :=
  match s.data with
  | [] => false
  | c :: _ =>
    let pre := s.data.takeWhile (fun x => x ≠ ':')
    c.isAlpha && decide (pre.length < s.data.length) && pre.all schemeCharB

/-- Everything before the first occurrence of a character. -/
def takeUntilCh (s : String) (ch : Char) : String :=
  String.mk (s.data.takeWhile (fun c => c ≠ ch))

/-- Drop a leading `scheme:` if present. -/
def stripScheme (s : String) : String :=
  if hasUrlScheme s then String.mk ((s.data.dropWhile (fun x => x ≠ ':')).drop 1) else s

/-- Drop a leading `//netloc` if present. -/
def dropNetloc (s : String) : String :=
  if strStartsWith s "//" then
    String.mk ((s.data.drop 2).dropWhile (fun c => c ≠ '/' && c ≠ '?' && c ≠ '#'))
  else s

/-- The `.path` component of `urllib.parse.urlparse(url)`. -/
def urlparsePath (url : String) : String :=
  takeUntilCh (dropNetloc (stripScheme (takeUntilCh url '#'))) '?'

/-- Model of `urllib.parse.urljoin("https://www.aclu.org", href)`, the one
base both scripts join against: an absolute reference is kept, a
scheme-relative one inherits `https:`, otherwise the reference is resolved
against a base with empty path.  (Dot-segment normalisation is not modelled;
the site emits none.) -/
def urljoin_aclu (href : String) : String :=
  if href = "" then "https://www.aclu.org"
  else if hasUrlScheme href then href
  else if strStartsWith href "//" then "https:" ++ href
  else if strStartsWith href "/" then "https://www.aclu.org" ++ href
  else if strStartsWith href "#" then "https://www.aclu.org" ++ href
  else if strStartsWith href "?" then "https://www.aclu.org" ++ href
  else "https://www.aclu.org/" ++ href

/-- Model of `os.path.basename` for POSIX paths: the part after the last `/`. -/
def osBasename (p : String) : String :=
  String.mk ((p.data.reverse.takeWhile (fun c => c ≠ '/')).reverse)

/-- Model of `os.path.join(a, b)` for the relative components this program
builds (a component starting with `/` would restart the path, as in Python). -/
def pathJoin (a b : String) : String :=
  if strStartsWith b "/" then b
  else if a = "" then b
  else if strEndsWith a "/" then a ++ b
  else a ++ "/" ++ b

/-! ## scrape_nsa2.py — pagination resolver (`get_next_page_url`, lines 12-39) -/

/-- The components `urllib.parse.urlparse` yields for the current page's URL
(the `params` component is unused by the code and omitted). -/
structure ParsedUrl where
  scheme : String
  netloc : String
  path : String
  query : String
  fragment : String
deriving DecidableEq

/-- One element matched by `soup.select('a.page-numbers, span.page-numbers')`:
its stripped text and whether the code treats it as current
(`'current' in a.get('class', []) or a.name == 'span'`). -/
structure PageNumEl where
  text : String
  isCurrent : Bool
deriving DecidableEq

/-- The parsed listing page as `get_next_page_url` inspects it:
`navNextHref` is the `href` of `a.next` inside `nav.page-numbers` when the
nav region, the anchor and the attribute are all present (`none` otherwise),
and `pageEls` are the page-number elements in document order. -/
structure Soup where
  navNextHref : Option String
  pageEls : List PageNumEl
deriving DecidableEq

/-- Lines 19-26: the last page-number element whose text parses as an int and
which is marked current (or is a `span`) gives `current_page`; elements whose
text fails `int()` are skipped by the bare `except`. -/
def currentPageOf (els : List PageNumEl) : Option Int :=
  (els.filterMap fun e =>
    match pyIntParse e.text with
    | some n => if e.isCurrent then some n else none
    | none => none).getLast?

/-- Lines 28-38: synthesize the fallback next-page URL from `current_page`
and the parsed current URL — `scheme://netloc` + path with trailing slashes
stripped + `/page/{current_page+1}`, then the re-encoded query if the parsed
query dict is non-empty, then the fragment if non-empty. -/
def fallbackNextUrl (current_page : Int) (p : ParsedUrl) : String :=
  let query := parse_qs p.query
  let next_page := current_page + 1
  let new_url := p.scheme ++ "://" ++ p.netloc ++ rstripSlashes p.path
      ++ "/page/" ++ toString next_page
  let new_url := if query = [] then new_url else new_url ++ "?" ++ urlencode query
  if p.fragment = "" then new_url else new_url ++ "#" ++ p.fragment

/-- The fallback tier: lines 19-39 (`None` when no active page number is
found). -/
def fallbackTier (els : List PageNumEl) (current_url : ParsedUrl) : Option String :=
  match currentPageOf els with
  | some n => some (fallbackNextUrl n current_url)
  | none => none

/-- Lines 12-39, `get_next_page_url(soup, current_url)`: the explicit
`a.next` link when present with a truthy `href`, else the synthesized
fallback, else `None`. -/
def get_next_page_url (soup : Soup) (current_url : ParsedUrl) : Option String :=
  match soup.navNextHref with
  | some h => if h ≠ "" then some (urljoin_aclu h) else fallbackTier soup.pageEls current_url
  | none => fallbackTier soup.pageEls current_url

/-! ## scrape_nsa2.py — listing parser (`get_detail_pages_from_listing`, lines 41-57) -/

/-- One `a.document-listing-card` element as the parser inspects it:
`href` is the card's link attribute (`none` when absent), `titleText` the
stripped text of its `div.is-size-4` child when present, `dateText` the full
text of the parent of the first string child containing "Document Date:"
when such a string exists. -/
structure ListingCard where
  href : Option String
  titleText : Option String
  dateText : Option String
deriving DecidableEq

/-- One candidate entry produced per kept card. -/
structure ListingItem where
  detail_url : String
  title : String
  doc_date : String
deriving DecidableEq

/-- Lines 41-57: cards with a missing or empty `href` are skipped
(`if not href: continue`); otherwise the detail link is resolved against the
site base, the title falls back to "Unknown Title", and the date text (or
"Unknown Date") has every "Document Date:" occurrence removed and is
whitespace-trimmed. -/
def get_detail_pages_from_listing : List ListingCard → List ListingItem
  | [] => []
  | c :: rest =>
    match c.href with
    | none => get_detail_pages_from_listing rest
    | some h =>
      if h = "" then get_detail_pages_from_listing rest
      else
        { detail_url := urljoin_aclu h
          title := match c.titleText with | some t => t | none => "Unknown Title"
          doc_date :=
            pyStrip (pyReplace
              (match c.dateText with | some d => d | none => "Unknown Date")
              "Document Date:" "") }
          :: get_detail_pages_from_listing rest

/-! ## scrape_nsa2.py — detail resolver (`get_direct_pdf_url`, lines 59-70) -/

/-- One anchor of a detail page as the resolver inspects it: whether it
carries a `download` attribute, its `.string` (the single text child, when
there is exactly one), and its `href` attribute. -/
structure Anchor where
  download : Bool
  astring : Option String
  href : Option String
deriving DecidableEq

/-- The outcome of `requests.get` on the detail page: an exception
(`fail`, caught by the resolver), or a response with a status code and the
anchors of the parsed body. -/
inductive FetchOutcome where
  | fail : FetchOutcome
  | page : Nat → List Anchor → FetchOutcome

/-- The text-based fallback heuristic of line 65:
`soup.find('a', string=lambda x: x and 'Download document' in x)`. -/
def anchorTextHit (a : Anchor) : Bool :=
  match a.astring with
  | some s => pyIn "Download document" s
  | none => false

/-- Lines 59-70, `get_direct_pdf_url`: `None` on a fetch exception or a
non-200 status; otherwise the first `download`-attributed anchor, or — only
when no such anchor exists at all — the first "Download document"-text
anchor; its `href`, when present and non-empty, resolved against the site
base. -/
def get_direct_pdf_url (oc : FetchOutcome) : Option String :=
  match oc with
  | FetchOutcome.fail => none
  | FetchOutcome.page status anchors =>
    if status ≠ 200 then none
    else
      match (anchors.find? (fun a => a.download)).orElse
          (fun _ => anchors.find? anchorTextHit) with
      | some a =>
        match a.href with
        | some h => if h = "" then none else some (urljoin_aclu h)
        | none => none
      | none => none

/-! ## scrape_nsa2.py — record store (`init_db`/`insert_into_db`, lines 72-108) -/

/-- One row of the `ACLU` table (schema of lines 77-85).  The table is kept
as a list in rowid order. -/
structure AcluRow where
  Page : String
  Document_Date : String
  DirectPDF_Link : String
  Duplicate : String
  Year_From_URL : Int
deriving DecidableEq

/-- Lines 91-108, `insert_into_db`: check for an existing row with the same
`Page`, set `Duplicate` accordingly, `INSERT OR REPLACE` the row and commit.
`ok` models whether the sqlite calls succeed; the `except` of line 107
swallows a failure, leaving the table unchanged (the document is simply not
durably recorded).  `INSERT OR REPLACE` deletes the old row for the key and
inserts a fresh one, which receives a fresh largest rowid — i.e. the new row
goes to the end of the list. -/
def insert_into_db (ok : Bool) (db : List AcluRow) (page_url doc_date pdf_url : String)
    (year_from_url : Int) : List AcluRow :=
  if ok then
    let dup := if db.any (fun r => r.Page == page_url) then "Yes" else "No"
    db.filter (fun r => !(r.Page == page_url)) ++
      [{ Page := page_url, Document_Date := doc_date, DirectPDF_Link := pdf_url,
         Duplicate := dup, Year_From_URL := year_from_url }]
  else db

/-! ## scrape_nsa2.py — per-year crawl loop (`scrape_year`, lines 110-156) -/

/-- One parsed listing entry together with the environment's answers for it:
`pdf` is what `get_direct_pdf_url(item['detail_url'])` returns, `writeOk`
whether the store write for it would succeed. -/
structure EntryEnv where
  detail_url : String
  title : String
  doc_date : String
  pdf : Option String
  writeOk : Bool
deriving DecidableEq

/-- One element of `all_pdfs`: `{**item, 'pdf_url': pdf, 'year': year}`. -/
structure SavedRecord where
  detail_url : String
  title : String
  doc_date : String
  pdf_url : String
  year : Int
deriving DecidableEq

/-- The argument tuple of one `insert_into_db` invocation. -/
structure UpsertCall where
  page_url : String
  doc_date : String
  pdf_url : String
  year : Int
deriving DecidableEq

/-- The saved-record built for an entry at line 142. -/
def mkSaved (it : EntryEnv) (p : String) (year : Int) : SavedRecord :=
  { detail_url := it.detail_url, title := it.title, doc_date := it.doc_date,
    pdf_url := p, year := year }

/-- The upsert call made for an entry at line 141. -/
def mkCall (it : EntryEnv) (p : String) (year : Int) : UpsertCall :=
  { page_url := it.detail_url, doc_date := it.doc_date, pdf_url := p, year := year }

/-- Lines 137-145, the per-entry loop: resolve each entry's PDF; on `Some`,
upsert and append to `all_pdfs` (the saved list); on `None`, log and move to
the next entry.  Returns the updated table, the saved records and the trace
of upsert calls made, each in entry order. -/
def processItems (year : Int) : List EntryEnv → List AcluRow →
    List AcluRow × List SavedRecord × List UpsertCall
  | [], db => (db, [], [])
  | it :: rest, db =>
    match it.pdf with
    | some p =>
      let db1 := insert_into_db it.writeOk db it.detail_url it.doc_date p year
      let r := processItems year rest db1
      (r.1, mkSaved it p year :: r.2.1, mkCall it p year :: r.2.2)
    | none => processItems year rest db

/-- What one iteration of the `while True` loop observes for a given page
number: the listing fetch raised (or returned non-2xx, line 124), or
succeeded with parsed items and the pagination resolver's answer for that
page. -/
inductive PageEnv where
  | fetchFail : PageEnv
  | ok : List EntryEnv → Option String → PageEnv

/-- Line 148's guard on the resolver's answer:
`next_url and 'page/' in next_url`. -/
def validNext : Option String → Bool
  | some u => pyIn "page/" u
  | none => false

/-- One iteration of the loop body (lines 118-153): returns the updated
table, the records appended to `all_pdfs` by this page, and whether the loop
advances to the next page. -/
def pageStep (year : Int) (pr : PageEnv) (db : List AcluRow) :
    List AcluRow × List SavedRecord × Bool :=
  match pr with
  | PageEnv.fetchFail => (db, [], false)
  | PageEnv.ok items next =>
    if items.isEmpty then (db, [], false)
    else
      let r := processItems year items db
      (r.1, r.2.1, validNext next)

/-- The `while True` loop of lines 118-153, driven by fuel (the Python loop
has no bound of its own). -/
def scrapeYearAux (env : Nat → PageEnv) (year : Int) :
    Nat → Nat → List AcluRow → List SavedRecord → List AcluRow × List SavedRecord
  | 0, _, db, saved => (db, saved)
  | Nat.succ fuel, page, db, saved =>
    let r := pageStep year (env page) db
    if r.2.2 then scrapeYearAux env year fuel (page + 1) r.1 (saved ++ r.2.1)
    else (r.1, saved ++ r.2.1)

/-- Lines 110-156, `scrape_year`: run the loop from page 1 with an empty
saved list, returning the table and `all_pdfs`. -/
def scrape_year (env : Nat → PageEnv) (year : Int) (db : List AcluRow) (fuel : Nat) :
    List AcluRow × List SavedRecord :=
  scrapeYearAux env year fuel 1 db []

/-! ## download_scrape_nsa2.py — download stage -/

/-- One row as the download stage reads it: the sqlite rowid plus the
nullable columns the query selects and filters on.  The input list is in
rowid (= insertion) order, but nothing below depends on that. -/
structure DLRow where
  rowid : Nat
  link : Option String
  dup : Option String
  year : Option Int
deriving DecidableEq

/-- The `DirectPDF_Link IS NOT NULL AND DirectPDF_Link != ''` condition. -/
def linkOk (r : DLRow) : Bool :=
  match r.link with
  | some s => decide (s ≠ "")
  | none => false

/-- Lines 59-73, `load_rows`: select rows with a usable link; without
`--include-duplicates` additionally require `Duplicate IS NULL OR
Duplicate='No'`. -/
def load_rows (db : List DLRow) (include_duplicates : Bool) : List DLRow :=
  if include_duplicates then db.filter linkOk
  else db.filter (fun r => linkOk r && decide (r.dup = none ∨ r.dup = some "No"))

/-- Line 123's sort key `(x[2] if x[2] else 9999, x[0])`: a `NULL` (and a
zero, Python truthiness) year sorts as 9999; ties break on rowid. -/
def pySortKey (r : DLRow) : Int × Nat :=
  (match r.year with
   | some y => if y = 0 then 9999 else y
   | none => 9999,
   r.rowid)

/-- Tuple comparison for the sort of line 123. -/
def keyLE (a b : DLRow) : Bool :=
  decide ((pySortKey a).1 < (pySortKey b).1) ||
    (decide ((pySortKey a).1 = (pySortKey b).1) && decide ((pySortKey a).2 ≤ (pySortKey b).2))

/-- Lines 35-40, `sanitize_filename`. -/
def sanitize_filename (name : String) (max_len : Nat := 200) : String :=
  let name := pyReplace (pyReplace (pyStrip name) "/" "_") "\\" "_"
  let name := (pySplit name "?").headD ""
  let name := (pySplit name "#").headD ""
  if name.length > max_len then String.mk (name.data.take max_len) else name

/-- Lines 43-46, `basename_from_url`. -/
def basename_from_url (url : String) : String :=
  let name := osBasename (unquote (urlparsePath url))
  sanitize_filename (if name = "" then "file.pdf" else name)

/-- Lines 49-52, `unique_fname`: `hashlib.sha1(url).hexdigest()` is
abstracted as the function argument `sha1hex` (its eight-character prefix is
taken here, as in the source). -/
def unique_fname (sha1hex : String → String) (rowid : Nat) (url : String) : String :=
  toString rowid ++ "_" ++ (sha1hex url).take 8 ++ "_" ++ basename_from_url url

/-- Line 143's `str(year if year is not None else "unknown")`. -/
def yearDirStr (r : DLRow) : String :=
  match r.year with
  | some y => toString y
  | none => "unknown"

/-- Lines 143-148: the destination path `out/year_str/fname`. -/
def destPathOf (out : String) (sha1hex : String → String) (r : DLRow) : String :=
  pathJoin (pathJoin out (yearDirStr r)) (unique_fname sha1hex r.rowid (r.link.getD ""))

/-- What the main loop does with one row: skip (destination exists, no
`--force`) or hand the URL to aria2c. -/
inductive DLAction where
  | skip : DLAction
  | fetch : DLAction
deriving DecidableEq

/-- Lines 117-171 of `main`: load the rows, sort them by the line-123 key
(Python's stable sort, modelled by a stable merge sort), and pair each row
with the action the loop takes for it — skip when the destination file exists
and `--force` is off, fetch otherwise.  `fileExists` abstracts
`os.path.exists`. -/
def mainPlan (sha1hex : String → String) (fileExists : String → Bool) (out : String)
    (force include_duplicates : Bool) (db : List DLRow) : List (DLRow × DLAction) :=
  let rows := load_rows db include_duplicates
  let sorted := rows.mergeSort keyLE
  sorted.map fun r =>
    (r, if fileExists (destPathOf out sha1hex r) && !force then DLAction.skip
        else DLAction.fetch)

/-! ## generate_local_index.py — year extraction -/

/-- Python's regex word-character class `\w` (ASCII scope; the paths this
script scans are ASCII). -/
def isWordChar (c : Char) : Bool := c.isAlphanum || c = '_'

/-- Whether the regex `\b(19\d{2}|20\d{2})\b` matches `cs` at position `i`:
four digits starting `19` or `20`, with a word boundary on each side. -/
def tokenAt (cs : List Char) (i : Nat) : Bool :=
  match cs[i]?, cs[i + 1]?, cs[i + 2]?, cs[i + 3]? with
  | some a, some b, some c, some d =>
    ((a = '1' && b = '9') || (a = '2' && b = '0')) && c.isDigit && d.isDigit &&
      (match i with
       | 0 => true
       | Nat.succ j => match cs[j]? with
         | some p => !isWordChar p
         | none => true) &&
      (match cs[i + 4]? with
       | some q => !isWordChar q
       | none => true)
  | _, _, _, _ => false

/-- The integer value of the four digits at a match position. -/
def yearValAt (cs : List Char) (i : Nat) : Nat :=
  ((cs[i]?.getD '0').toNat - 48) * 1000 + ((cs[i + 1]?.getD '0').toNat - 48) * 100 +
    ((cs[i + 2]?.getD '0').toNat - 48) * 10 + ((cs[i + 3]?.getD '0').toNat - 48)

/-- Line 16's `re.search(r"\b(19\d{2}|20\d{2})\b", part)` followed by
`int(match.group(0))`: the leftmost match position, if any, and its value
(`re.search` scans positions left to right). -/
def matchYear (s : String) : Option Nat :=
  match (List.range s.data.length).find? (fun i => tokenAt s.data i) with
  | some i => some (yearValAt s.data i)
  | none => none

/-- Lines 13-19, `extract_year_from_path(path_parts)`: the first part where
the search succeeds gives the year; `None` when no part matches. -/
def extract_year_from_path (parts : List String) : Option Nat :=
  parts.findSome? matchYear

/-! ## Specification-side definitions (written from the spec's words, for
comparison with the code-side definitions above) -/

/-- Spec side, claim C8: a path segment contains a word-bounded four-digit
token whose value lies in 1900..2099. -/
def HasYearToken (s : String) : Prop :=
  ∃ pre ds suf, s.data = pre ++ ds ++ suf ∧ ds.length = 4 ∧ (∀ c ∈ ds, c.isDigit) ∧
    1900 ≤ natFromDigits ds ∧ natFromDigits ds ≤ 2099 ∧
    (pre = [] ∨ ∃ c, pre.getLast? = some c ∧ isWordChar c = false) ∧
    (suf = [] ∨ ∃ c, suf.head? = some c ∧ isWordChar c = false)

/-- Spec side, claim C2: the URL the claim predicts — the existing page-path
segment's number incremented in place, query and fragment kept verbatim. -/
def incrementPageInSegs : List String → List String
  | [] => []
  | s :: rest =>
    if s = "page" then
      match rest with
      | n :: rest' =>
        if n ≠ "" && n.data.all Char.isDigit then
          s :: toString (natFromDigits n.data + 1) :: rest'
        else s :: incrementPageInSegs rest
      | [] => [s]
    else s :: incrementPageInSegs rest

/-- Spec side, claim C2: rewrite `.../page/{n}` to `.../page/{n+1}` keeping
everything else of the URL verbatim. -/
def specIncrementPageUrl (u : ParsedUrl) : String :=
  u.scheme ++ "://" ++ u.netloc ++
    String.intercalate "/" (incrementPageInSegs (pySplit u.path "/")) ++
    (if u.query = "" then "" else "?" ++ u.query) ++
    (if u.fragment = "" then "" else "#" ++ u.fragment)

/-- The current URL's path contains a `/page/{n}` segment. -/
def HasPageSegment (path : String) : Prop :=
  ∃ pre n suf, path = pre ++ "/page/" ++ toString (n : Nat) ++ suf

/-- No explicit next link exists on the page (the nav anchor is missing or
its `href` is falsy), so `get_next_page_url` takes the fallback tier. -/
def NoExplicitNext (s : Soup) : Prop :=
  s.navNextHref = none ∨ s.navNextHref = some ""

/-- Spec side, claim C3 (amended): the anchor the two-tier search selects —
the first `download`-marked anchor when one exists, otherwise the first
"Download document"-text anchor. -/
def specSelectAnchor (anchors : List Anchor) : Option Anchor :=
  if anchors.any (fun a => a.download) then anchors.find? (fun a => a.download)
  else anchors.find? anchorTextHit

/-- Spec side, claim C6: a card is kept exactly when its link attribute is
present and non-empty. -/
def cardHrefOk (c : ListingCard) : Bool :=
  match c.href with
  | some h => decide (h ≠ "")
  | none => false

/-- Spec side, claim C6: the entry the claim describes for a kept card —
link resolved against the site base, sentinel title, date label stripped
(or the date sentinel, untouched, when no date text exists). -/
def specListingEntry (c : ListingCard) : ListingItem :=
  { detail_url := urljoin_aclu (c.href.getD "")
    title := c.titleText.getD "Unknown Title"
    doc_date :=
      match c.dateText with
      | some d => pyStrip (pyReplace d "Document Date:" "")
      | none => "Unknown Date" }

/-- Spec side, claim C4: the end-of-year conditions — fetch failure, zero
parsed entries, or no next URL containing the page-path marker. -/
def TermCond (pr : PageEnv) : Prop :=
  pr = PageEnv.fetchFail ∨
    ∃ items next, pr = PageEnv.ok items next ∧
      (items = [] ∨ ¬ ∃ u, next = some u ∧ pyIn "page/" u = true)

/-- Spec side, claim C7: processed "sorted by (discovery_year ascending,
insertion order)" — rowid stands for insertion order. -/
def yearRowLE (a b : DLRow) : Prop :=
  ∃ ya yb, a.year = some ya ∧ b.year = some yb ∧
    (ya < yb ∨ (ya = yb ∧ a.rowid ≤ b.rowid))

/-- Spec side, claim C7: the rows the claim says the download stage selects. -/
def specSelected (include_duplicates : Bool) (r : DLRow) : Bool :=
  linkOk r && (include_duplicates || decide (r.dup ≠ some "Yes"))

/-- Well-formedness of a stored row as the crawl stage writes it: the
duplicate flag is NULL, "No" or "Yes", and the discovery year is a real
crawl year (positive, below the 9999 sentinel). -/
def WFRow (r : DLRow) : Prop :=
  (r.dup = none ∨ r.dup = some "No" ∨ r.dup = some "Yes") ∧
    ∃ y, r.year = some y ∧ 0 < y ∧ y < 9999

/-! ## Helper lemmas -/

/-- Unfolding lemma: the upsert-call trace of the per-entry loop is the
`Some`-resolved entries in order. -/
theorem processItems_calls (year : Int) (items : List EntryEnv) (db : List AcluRow) :
    (processItems year items db).2.2 =
      items.filterMap (fun it => it.pdf.map (fun p => mkCall it p year)) := by
  induction items generalizing db with
  | nil => rfl
  | cons it rest ih =>
    cases hp : it.pdf with
    | none => simp [processItems, hp, ih]
    | some p => simp [processItems, hp, ih]

/-- Unfolding lemma: the saved list of the per-entry loop is the
`Some`-resolved entries in order. -/
theorem processItems_saved (year : Int) (items : List EntryEnv) (db : List AcluRow) :
    (processItems year items db).2.1 =
      items.filterMap (fun it => it.pdf.map (fun p => mkSaved it p year)) := by
  induction items generalizing db with
  | nil => rfl
  | cons it rest ih =>
    cases hp : it.pdf with
    | none => simp [processItems, hp, ih]
    | some p => simp [processItems, hp, ih]

/-- The two-tier anchor search of line 65 equals the spec-side selector. -/
theorem find_orElse_eq_specSelect (anchors : List Anchor) :
    (anchors.find? (fun a => a.download)).orElse (fun _ => anchors.find? anchorTextHit) =
      specSelectAnchor anchors := by
  unfold specSelectAnchor
  by_cases h : anchors.any (fun a => a.download)
  · have hs : (anchors.find? (fun a => a.download)).isSome := by
      rw [List.find?_isSome]
      simpa using List.any_eq_true.mp h
    cases hf : anchors.find? (fun a => a.download) with
    | none => rw [hf] at hs; simp at hs
    | some a => simp [h, hf, Option.orElse]
  · have hn : anchors.find? (fun a => a.download) = none := by
      rw [List.find?_eq_none]
      intro x hx hxx
      exact h (List.any_eq_true.mpr ⟨x, hx, hxx⟩)
    simp [h, hn, Option.orElse]

/-! ## Claim theorems -/


/-- C1: after any upsert (first or repeated, identical payload or not) the
table holds exactly one row for the key; its payload is the call's arguments
and its flag is "No" exactly when the key was absent before the call; the
key stays present afterwards (so every later upsert for it flags "Yes"); and
the spec's 2013-then-2014 scenario ends with one row, year 2014, flag "Yes". -/
theorem upsert_unique_last_write_flagging (db : List AcluRow) (p d u : String) (y : Int) :
    (insert_into_db true db p d u y).filter (fun r => r.Page == p) =
      [{ Page := p, Document_Date := d, DirectPDF_Link := u,
         Duplicate := if db.any (fun r => r.Page == p) then "Yes" else "No",
         Year_From_URL := y }] ∧
    (insert_into_db true db p d u y).any (fun r => r.Page == p) = true ∧
    insert_into_db true (insert_into_db true [] "P" "date1" "url1" 2013) "P" "date2" "url2" 2014 =
      [{ Page := "P", Document_Date := "date2", DirectPDF_Link := "url2",
         Duplicate := "Yes", Year_From_URL := 2014 }] := by
  refine ⟨?_, ?_, by decide⟩
  · simp only [insert_into_db, if_true, List.filter_append, List.filter_filter]
    have h1 : db.filter (fun r => (r.Page == p) && !(r.Page == p)) = [] := by
      apply List.filter_eq_nil_iff.mpr
      intro r _
      cases h : (r.Page == p) <;> simp [h]
    simp [h1]
  · simp [insert_into_db]

/-- C5: in the per-entry loop, entries whose detail resolution is `None` get
no upsert call and no saved record, and entries resolving to `Some pdf` get
exactly one upsert call carrying the entry's detail URL, date, PDF URL and
the crawl year, plus one saved record — both lists in entry order. -/
theorem resolver_gates_upsert (year : Int) (items : List EntryEnv) (db : List AcluRow) :
    (processItems year items db).2.2 =
      items.filterMap (fun it => it.pdf.map (fun p => mkCall it p year)) ∧
    (processItems year items db).2.1 =
      items.filterMap (fun it => it.pdf.map (fun p => mkSaved it p year)) :=
  ⟨processItems_calls year items db, processItems_saved year items db⟩

/-- C10: the saved list's length equals the number of entries whose detail
page resolved to a PDF, with no reference to whether the store writes
succeeded; concretely, a single resolved entry whose write fails is still
counted (length 1) while the table stays empty — the reported count can
exceed the rows durably recorded. -/
theorem saved_count_ignores_write_failures (year : Int) (items : List EntryEnv)
    (db : List AcluRow) :
    (processItems year items db).2.1.length = items.countP (fun it => it.pdf.isSome) ∧
    (processItems 2013 [⟨"u", "t", "d", some "p.pdf", false⟩] []).2.1.length = 1 ∧
    (processItems 2013 [⟨"u", "t", "d", some "p.pdf", false⟩] []).1 = [] := by
  refine ⟨?_, by decide, by decide⟩
  rw [processItems_saved]
  induction items with
  | nil => rfl
  | cons it rest ih =>
    cases hp : it.pdf <;> simp [hp, ih, List.countP_cons]

/-- C9: a failed store write is absorbed inside the store layer — the upsert
is a total function that returns the table unchanged on failure (so every
other key's rows are untouched), and the per-entry loop still records the
entry and proceeds to the remaining entries of the page from the unchanged
table. -/
theorem store_failure_contained :
    (∀ (db : List AcluRow) (p d u : String) (y : Int),
      insert_into_db false db p d u y = db) ∧
    (∀ (year : Int) (it : EntryEnv) (rest : List EntryEnv) (db : List AcluRow) (p : String),
      it.pdf = some p → it.writeOk = false →
      processItems year (it :: rest) db =
        ((processItems year rest db).1,
         mkSaved it p year :: (processItems year rest db).2.1,
         mkCall it p year :: (processItems year rest db).2.2)) := by
  refine ⟨fun db p d u y => rfl, ?_⟩
  intro year it rest db p hp hw
  simp [processItems, hp, hw, insert_into_db]

/-- C4: one iteration of the per-year loop declines to advance exactly when
an end-of-year condition holds — the fetch failed, the parser yielded zero
entries, or the resolver yielded no next URL containing the page-path
marker (so each of the three is independently sufficient); otherwise the
loop recurses on page+1 with the page's results appended, and on
termination it returns the accumulated results. -/
theorem year_loop_end_conditions (env : Nat → PageEnv) (year : Int) (page : Nat)
    (db : List AcluRow) (saved : List SavedRecord) (fuel : Nat) :
    ((pageStep year (env page) db).2.2 = false ↔ TermCond (env page)) ∧
    ((pageStep year (env page) db).2.2 = true →
      scrapeYearAux env year (fuel + 1) page db saved =
        scrapeYearAux env year fuel (page + 1) (pageStep year (env page) db).1
          (saved ++ (pageStep year (env page) db).2.1)) ∧
    ((pageStep year (env page) db).2.2 = false →
      scrapeYearAux env year (fuel + 1) page db saved =
        ((pageStep year (env page) db).1, saved ++ (pageStep year (env page) db).2.1)) := by
  refine ⟨?_, ?_, ?_⟩
  · cases hpr : env page with
    | fetchFail => simp [pageStep, TermCond]
    | ok items next =>
      by_cases hi : items = []
      · subst hi
        refine ⟨fun _ => Or.inr ⟨[], next, rfl, Or.inl rfl⟩, fun _ => rfl⟩
      · have hne : items.isEmpty = false := by simp [List.isEmpty_iff, hi]
        have hps : (pageStep year (PageEnv.ok items next) db).2.2 = validNext next := by
          simp [pageStep, hne]
        rw [hps]
        cases next with
        | none =>
          refine ⟨fun _ => Or.inr ⟨items, none, rfl, Or.inr ?_⟩, fun _ => rfl⟩
          rintro ⟨u, hu, -⟩
          exact Option.noConfusion hu
        | some u =>
          show (pyIn "page/" u = false) ↔ _
          constructor
          · intro hu
            refine Or.inr ⟨items, some u, rfl, Or.inr ?_⟩
            rintro ⟨v, hv, hpyv⟩
            cases hv
            simp [hu] at hpyv
          · intro ht
            rcases ht with h | ⟨items2, next2, heq, hcase⟩
            · exact absurd h (by simp)
            · simp only [PageEnv.ok.injEq] at heq
              obtain ⟨h1, h2⟩ := heq
              subst h1
              subst h2
              rcases hcase with h0 | hnx
              · exact absurd h0 hi
              · cases hpy : pyIn "page/" u with
                | false => rfl
                | true => exact absurd ⟨u, rfl, hpy⟩ hnx
  · intro h
    simp [scrapeYearAux, h]
  · intro h
    simp [scrapeYearAux, h]

/-- C6 (amended): the parser returns one entry per document-card element
that has a non-empty link, in page order — each with the link resolved
against the site base, the title or the "Unknown Title" sentinel, and the
display date with the "Document Date:" label removed and whitespace trimmed
(or the "Unknown Date" sentinel); cards with a missing or empty link yield
no entry. -/
theorem listing_parser_skips_linkless_cards (cards : List ListingCard) :
    get_detail_pages_from_listing cards = (cards.filter cardHrefOk).map specListingEntry := by
  induction cards with
  | nil => rfl
  | cons c rest ih =>
    cases hc : c.href with
    | none => simp [get_detail_pages_from_listing, cardHrefOk, hc, ih]
    | some h =>
      by_cases he : h = ""
      · simp [get_detail_pages_from_listing, cardHrefOk, hc, he, ih]
      · simp [get_detail_pages_from_listing, cardHrefOk, hc, he, ih, specListingEntry]
        constructor
        · cases c.titleText <;> rfl
        · cases c.dateText
          · decide
          · rfl

/-- C6 counterexample: a listing page with exactly one document-card element,
which lacks an `href`, produces zero entries — not one entry per card as the
claim states. -/
theorem listing_parser_counterexample :
    get_detail_pages_from_listing
      [⟨none, some "Title", some "Document Date: Jan 1, 2013"⟩] = [] ∧
    ([⟨none, some "Title", some "Document Date: Jan 1, 2013"⟩] : List ListingCard).length = 1 :=
  ⟨rfl, rfl⟩

/-- C3 (amended): detail resolution is total — `none` on a fetch exception
and on any non-200 status, and on a 200 response the result is determined by
the two-tier selection: the first `download`-marked anchor when any exists,
otherwise the first "Download document"-text anchor; `some` of the resolved
absolute URL exactly when the selected anchor has a non-empty `href`, `none`
otherwise. -/
theorem detail_resolver_two_tier (anchors : List Anchor) :
    get_direct_pdf_url FetchOutcome.fail = none ∧
    (∀ (status : Nat) (ans : List Anchor), status ≠ 200 →
      get_direct_pdf_url (FetchOutcome.page status ans) = none) ∧
    get_direct_pdf_url (FetchOutcome.page 200 anchors) =
      (match specSelectAnchor anchors with
       | some a =>
         match a.href with
         | some h => if h = "" then none else some (urljoin_aclu h)
         | none => none
       | none => none) := by
  refine ⟨rfl, ?_, ?_⟩
  · intro st ans hst
    simp [get_direct_pdf_url, hst]
  · simp only [get_direct_pdf_url, ne_eq, not_true_eq_false, if_false,
      find_orElse_eq_specSelect]

/-- C3 counterexample: the fetch succeeds and the text heuristic matches an
anchor with a non-empty `href`, yet the resolver returns `none`, because a
`download`-marked anchor without an `href` was selected first and the second
heuristic is never consulted when any `download`-marked anchor exists. -/
theorem detail_resolver_counterexample :
    get_direct_pdf_url (FetchOutcome.page 200
      [⟨true, none, none⟩, ⟨false, some "Download document", some "/files/doc.pdf"⟩]) = none ∧
    anchorTextHit ⟨false, some "Download document", some "/files/doc.pdf"⟩ = true ∧
    get_direct_pdf_url (FetchOutcome.page 200
      [⟨true, none, none⟩, ⟨false, some "Download document", some "/files/doc.pdf"⟩]) ≠
      some "https://www.aclu.org/files/doc.pdf" :=
  ⟨by decide, by decide, by decide⟩

/-- Evaluation lemma: the empty query string parses to the empty dict. -/
theorem parse_qs_empty : parse_qs "" = [] := rfl

/-- C2 (amended): when no explicit next link exists and an active page
number n is found, the fallback does not rewrite the existing page-path
segment — it appends a further `/page/{n+1}` segment to the
trailing-slash-stripped path (the number used is the active page number plus
one, not the URL segment's number plus one); the fragment is preserved
verbatim, and the query string is preserved verbatim whenever it is already
in canonical urlencoded form (in general it is re-encoded from its parsed
parameters). -/
theorem pagination_fallback_appends_segment (s : Soup) (u : ParsedUrl) (n : Int)
    (_hseg : HasPageSegment u.path)
    (hnav : NoExplicitNext s)
    (hcur : currentPageOf s.pageEls = some n)
    (hq : urlencode (parse_qs u.query) = u.query) :
    get_next_page_url s u =
      some (u.scheme ++ "://" ++ u.netloc ++ rstripSlashes u.path ++ "/page/" ++
          toString (n + 1) ++ (if u.query = "" then "" else "?" ++ u.query) ++
          (if u.fragment = "" then "" else "#" ++ u.fragment)) := by
  have hstep : get_next_page_url s u = some (fallbackNextUrl n u) := by
    rcases hnav with h | h <;> simp [get_next_page_url, h, fallbackTier, hcur]
  rw [hstep]
  congr 1
  unfold fallbackNextUrl
  by_cases hq2 : parse_qs u.query = []
  · have hq0 : u.query = "" := by rw [← hq, hq2]; rfl
    simp only [hq2, hq0, parse_qs_empty, if_true, String.append_empty, if_pos rfl]
    by_cases hf : u.fragment = "" <;> simp [hf, String.append_empty, String.append_assoc]
  · have hqne : u.query ≠ "" := by
      intro h0
      rw [h0] at hq2
      exact hq2 parse_qs_empty
    simp only [hq2, if_neg hq2, hq, if_neg hqne]
    by_cases hf : u.fragment = "" <;> simp [hf, String.append_assoc]

/-- C2 counterexample: for the current URL `/foia/page/3` (no query, no
fragment) with active page number 3 and no explicit next link, the code
produces `/foia/page/3/page/4` — not `/foia/page/4`, the URL with the
existing segment's number incremented that the claim predicts. -/
theorem pagination_fallback_counterexample :
    get_next_page_url ⟨none, [⟨"3", true⟩]⟩ ⟨"https", "www.aclu.org", "/foia/page/3", "", ""⟩ =
      some "https://www.aclu.org/foia/page/3/page/4" ∧
    specIncrementPageUrl ⟨"https", "www.aclu.org", "/foia/page/3", "", ""⟩ =
      "https://www.aclu.org/foia/page/4" ∧
    get_next_page_url ⟨none, [⟨"3", true⟩]⟩ ⟨"https", "www.aclu.org", "/foia/page/3", "", ""⟩ ≠
      some (specIncrementPageUrl ⟨"https", "www.aclu.org", "/foia/page/3", "", ""⟩) :=
  ⟨by decide, by decide, by decide⟩

/-- C2 witness: the amended theorem applied to the crawler's own page-1 URL
for year 2013, with an active page number of 1, a canonical query and a
fragment. -/
theorem pagination_fallback_appends_segment_witness :
    get_next_page_url ⟨none, [⟨"1", true⟩]⟩
        ⟨"https", "www.aclu.org", "/foia-collections/nsa-documents-search/page/1",
          "document_date=2013", "listings"⟩ =
      some ("https" ++ "://" ++ "www.aclu.org" ++
          rstripSlashes "/foia-collections/nsa-documents-search/page/1" ++ "/page/" ++
          toString ((1 : Int) + 1) ++
          (if ("document_date=2013" : String) = "" then "" else "?" ++ "document_date=2013") ++
          (if ("listings" : String) = "" then "" else "#" ++ "listings")) :=
  pagination_fallback_appends_segment ⟨none, [⟨"1", true⟩]⟩
    ⟨"https", "www.aclu.org", "/foia-collections/nsa-documents-search/page/1",
      "document_date=2013", "listings"⟩ 1
    ⟨"/foia-collections/nsa-documents-search", 1, "", by decide⟩
    (Or.inl rfl) (by decide) (by decide)

/-- Decimal digits have code points 48..57. -/
theorem isDigit_bounds {c : Char} (h : c.isDigit = true) : 48 ≤ c.toNat ∧ c.toNat ≤ 57 := by
  simpa [Char.isDigit] using h

/-- The value of exactly four digits, spelt out. -/
theorem natFromDigits_four (a b c d : Char) :
    natFromDigits [a, b, c, d] =
      (a.toNat - 48) * 1000 + (b.toNat - 48) * 100 + (c.toNat - 48) * 10 + (d.toNat - 48) := by
  simp [natFromDigits, List.foldl]
  ring

/-- A word-bounded four-digit token with value in 1900..2099 makes the
regex model match at the position right after its prefix. -/
theorem tokenAt_of_decomp (pre suf : List Char) (a b c d : Char)
    (hdig : ∀ ch ∈ [a, b, c, d], ch.isDigit = true)
    (hlo : 1900 ≤ natFromDigits [a, b, c, d])
    (hhi : natFromDigits [a, b, c, d] ≤ 2099)
    (hpre : pre = [] ∨ ∃ p, pre.getLast? = some p ∧ isWordChar p = false)
    (hsuf : suf = [] ∨ ∃ q, suf.head? = some q ∧ isWordChar q = false) :
    tokenAt (pre ++ [a, b, c, d] ++ suf) pre.length = true := by
  have cs_eq : pre ++ [a, b, c, d] ++ suf = pre ++ ([a, b, c, d] ++ suf) := by
    rw [List.append_assoc]
  have key : ∀ k, (pre ++ [a, b, c, d] ++ suf)[pre.length + k]? = (a :: b :: c :: d :: suf)[k]? := by
    intro k
    rw [cs_eq, List.getElem?_append_right (by omega), Nat.add_sub_cancel_left]
    rfl
  have ha : (pre ++ [a, b, c, d] ++ suf)[pre.length]? = some a := by
    have := key 0
    rwa [Nat.add_zero] at this
  have hb : (pre ++ [a, b, c, d] ++ suf)[pre.length + 1]? = some b := by simpa using key 1
  have hc : (pre ++ [a, b, c, d] ++ suf)[pre.length + 2]? = some c := by simpa using key 2
  have hd : (pre ++ [a, b, c, d] ++ suf)[pre.length + 3]? = some d := by simpa using key 3
  have hna := isDigit_bounds (hdig a (by simp))
  have hnb := isDigit_bounds (hdig b (by simp))
  have hnc := isDigit_bounds (hdig c (by simp))
  have hnd := isDigit_bounds (hdig d (by simp))
  rw [natFromDigits_four] at hlo hhi
  unfold tokenAt
  simp only [ha, hb, hc, hd]
  simp only [Bool.and_eq_true, Bool.or_eq_true, decide_eq_true_eq]
  refine ⟨⟨⟨⟨?_, hdig c (by simp)⟩, hdig d (by simp)⟩, ?_⟩, ?_⟩
  · have hab : (a.toNat = 49 ∧ b.toNat = 57) ∨ (a.toNat = 50 ∧ b.toNat = 48) := by omega
    rcases hab with ⟨h1, h2⟩ | ⟨h1, h2⟩
    · exact Or.inl ⟨Char.eq_of_val_eq (UInt32.ext (by simpa using h1)),
        Char.eq_of_val_eq (UInt32.ext (by simpa using h2))⟩
    · exact Or.inr ⟨Char.eq_of_val_eq (UInt32.ext (by simpa using h1)),
        Char.eq_of_val_eq (UInt32.ext (by simpa using h2))⟩
  · rcases hpre with rfl | ⟨p, hpl, hpw⟩
    · rfl
    · cases pre with
      | nil => simp at hpl
      | cons x xs =>
        have hgl : ((x :: xs) ++ [a, b, c, d] ++ suf)[xs.length]? = some p := by
          rw [List.append_assoc, List.getElem?_append_left (by simp)]
          have := List.getLast?_eq_getElem? (x :: xs)
          rw [hpl] at this
          simpa using this.symm
        simp only [List.length_cons]
        rw [hgl]
        simp [hpw]
  · have h4 : (pre ++ [a, b, c, d] ++ suf)[pre.length + 4]? = suf[0]? := by
      rw [cs_eq, List.getElem?_append_right (by omega), Nat.add_sub_cancel_left]
      simp
    rcases hsuf with rfl | ⟨q, hsq, hqw⟩
    · rw [h4]
      simp
    · have : suf[0]? = some q := by
        rw [← List.head?_eq_getElem?, hsq]
      rw [h4, this]
      simp [hqw]

/-- A match position of the regex model yields the spec-side decomposition:
four digits in range with non-word (or absent) neighbours, and the matched
value is the digits' value. -/
theorem tokenAt_decomp {cs : List Char} {i : Nat} (h : tokenAt cs i = true) :
    ∃ pre a b c d suf, cs = pre ++ [a, b, c, d] ++ suf ∧ pre.length = i ∧
      (∀ ch ∈ [a, b, c, d], ch.isDigit = true) ∧
      1900 ≤ natFromDigits [a, b, c, d] ∧ natFromDigits [a, b, c, d] ≤ 2099 ∧
      (pre = [] ∨ ∃ p, pre.getLast? = some p ∧ isWordChar p = false) ∧
      (suf = [] ∨ ∃ q, suf.head? = some q ∧ isWordChar q = false) ∧
      yearValAt cs i = natFromDigits [a, b, c, d] := by
  unfold tokenAt at h
  split at h
  case _ a b c d ha hb hc hd =>
    simp only [Bool.and_eq_true, Bool.or_eq_true, decide_eq_true_eq] at h
    obtain ⟨⟨⟨⟨hab, hcdig⟩, hddig⟩, hbound1⟩, hbound2⟩ := h
    obtain ⟨hi, hva⟩ := List.getElem?_eq_some.mp ha
    obtain ⟨hi1, hvb⟩ := List.getElem?_eq_some.mp hb
    obtain ⟨hi2, hvc⟩ := List.getElem?_eq_some.mp hc
    obtain ⟨hi3, hvd⟩ := List.getElem?_eq_some.mp hd
    have d1 : cs.drop i = a :: cs.drop (i + 1) := by
      rw [List.drop_eq_getElem_cons hi, hva]
    have d2 : cs.drop (i + 1) = b :: cs.drop (i + 2) := by
      rw [List.drop_eq_getElem_cons hi1, hvb]
    have d3 : cs.drop (i + 2) = c :: cs.drop (i + 3) := by
      rw [List.drop_eq_getElem_cons hi2, hvc]
    have d4 : cs.drop (i + 3) = d :: cs.drop (i + 4) := by
      rw [List.drop_eq_getElem_cons hi3, hvd]
    have habn : (a.toNat = 49 ∧ b.toNat = 57) ∨ (a.toNat = 50 ∧ b.toNat = 48) := by
      rcases hab with ⟨h1, h2⟩ | ⟨h1, h2⟩ <;> subst h1 <;> subst h2
      · exact Or.inl ⟨rfl, rfl⟩
      · exact Or.inr ⟨rfl, rfl⟩
    have hcb := isDigit_bounds hcdig
    have hdb := isDigit_bounds hddig
    refine ⟨cs.take i, a, b, c, d, cs.drop (i + 4), ?_, ?_, ?_, ?_, ?_, ?_, ?_, ?_⟩
    · calc cs = cs.take i ++ cs.drop i := (List.take_append_drop i cs).symm
        _ = cs.take i ++ [a, b, c, d] ++ cs.drop (i + 4) := by
            rw [d1, d2, d3, d4]; simp
    · simp [List.length_take]
      omega
    · intro ch hch
      simp only [List.mem_cons, List.not_mem_nil, or_false] at hch
      rcases hch with rfl | rfl | rfl | rfl
      · rcases hab with ⟨h1, -⟩ | ⟨h1, -⟩ <;> subst h1 <;> decide
      · rcases hab with ⟨-, h2⟩ | ⟨-, h2⟩ <;> subst h2 <;> decide
      · exact hcdig
      · exact hddig
    · rw [natFromDigits_four]
      omega
    · rw [natFromDigits_four]
      omega
    · cases i with
      | zero => exact Or.inl rfl
      | succ j =>
        have hj : j < cs.length := by omega
        cases hjv : cs[j]? with
        | none =>
          have := List.getElem?_eq_some.mpr ⟨hj, rfl⟩
          rw [hjv] at this
          exact Option.noConfusion this
        | some p =>
          have hb1 : (match cs[j]? with
              | some p => !isWordChar p
              | none => true) = true := hbound1
          rw [hjv] at hb1
          simp only [Bool.not_eq_true'] at hb1
          refine Or.inr ⟨p, ?_, hb1⟩
          rw [List.getLast?_eq_getElem?]
          have hl : (cs.take (j + 1)).length = j + 1 := by
            simp [List.length_take]
            omega
          rw [hl]
          simp only [Nat.add_sub_cancel, List.getElem?_take]
          rw [if_pos (by omega), hjv]
    · cases hq : cs[i + 4]? with
      | none =>
        refine Or.inl ?_
        rw [← List.head?_eq_none_iff, List.head?_drop, hq]
      | some q =>
        rw [hq] at hbound2
        simp only [Bool.not_eq_true'] at hbound2
        exact Or.inr ⟨q, by rw [List.head?_drop, hq], hbound2⟩
    · simp [yearValAt, ha, hb, hc, hd, natFromDigits_four]
  case _ => simp at h

/-- The regex search on one path segment succeeds exactly when the segment
contains a word-bounded four-digit token valued 1900..2099. -/
theorem matchYear_isSome_iff (s : String) : (matchYear s).isSome = true ↔ HasYearToken s := by
  constructor
  · intro h
    have hex : ∃ i ∈ List.range s.data.length, tokenAt s.data i = true := by
      rw [← List.find?_isSome]
      cases hf : (List.range s.data.length).find? (fun i => tokenAt s.data i) with
      | none => unfold matchYear at h; rw [hf] at h; simp at h
      | some i => simp
    obtain ⟨i, -, hitok⟩ := hex
    obtain ⟨pre, a, b, c, d, suf, hcs, -, hdig, hlo, hhi, hpre, hsuf, -⟩ := tokenAt_decomp hitok
    exact ⟨pre, [a, b, c, d], suf, hcs, rfl, hdig, hlo, hhi, hpre, hsuf⟩
  · rintro ⟨pre, ds, suf, hcs, hlen, hdig, hlo, hhi, hpre, hsuf⟩
    obtain ⟨a, b, c, d, rfl⟩ : ∃ a b c d, ds = [a, b, c, d] := by
      match ds, hlen with
      | [a, b, c, d], _ => exact ⟨a, b, c, d, rfl⟩
    have htok := tokenAt_of_decomp pre suf a b c d hdig hlo hhi hpre hsuf
    have hfind : ((List.range s.data.length).find? (fun i => tokenAt s.data i)).isSome = true := by
      rw [List.find?_isSome]
      refine ⟨pre.length, ?_, ?_⟩
      · rw [List.mem_range, hcs]
        simp
      · rw [hcs]
        exact htok
    unfold matchYear
    cases hf : (List.range s.data.length).find? (fun i => tokenAt s.data i) with
    | none => rw [hf] at hfind; simp at hfind
    | some i => simp

/-- Any year the regex search returns lies in 1900..2099. -/
theorem matchYear_some_range {s : String} {y : Nat} (h : matchYear s = some y) :
    1900 ≤ y ∧ y ≤ 2099 := by
  unfold matchYear at h
  cases hf : (List.range s.data.length).find? (fun i => tokenAt s.data i) with
  | none => rw [hf] at h; exact Option.noConfusion h
  | some i =>
    rw [hf] at h
    have hyv : yearValAt s.data i = y := by injection h
    have hitok := List.find?_some hf
    obtain ⟨-, a, b, c, d, -, -, -, -, hlo, hhi, -, -, hval⟩ := tokenAt_decomp hitok
    rw [← hyv, hval]
    exact ⟨hlo, hhi⟩

/-- C8: year extraction returns `some` exactly when some path segment
contains a word-bounded 4-digit token in 1900..2099, and the returned year
comes from the first such segment (all earlier segments token-free), with
the value in range. -/
theorem year_extraction_first_token (parts : List String) :
    ((extract_year_from_path parts).isSome = true ↔ ∃ p ∈ parts, HasYearToken p) ∧
    (∀ y, extract_year_from_path parts = some y →
      ∃ pre p suf, parts = pre ++ p :: suf ∧ (∀ q ∈ pre, ¬ HasYearToken q) ∧
        matchYear p = some y ∧ 1900 ≤ y ∧ y ≤ 2099) := by
  induction parts with
  | nil => simp [extract_year_from_path]
  | cons p rest ih =>
    constructor
    · cases hm : matchYear p with
      | some y =>
        simp only [extract_year_from_path, List.findSome?_cons, hm, Option.isSome_some,
          true_iff]
        exact ⟨p, by simp, (matchYear_isSome_iff p).mp (by rw [hm]; rfl)⟩
      | none =>
        have hnp : ¬ HasYearToken p := by
          intro ht
          have := (matchYear_isSome_iff p).mpr ht
          rw [hm] at this
          exact Bool.noConfusion this
        simp only [extract_year_from_path, List.findSome?_cons, hm]
        rw [(by rfl : List.findSome? matchYear rest = extract_year_from_path rest), ih.1]
        constructor
        · rintro ⟨q, hq, hqt⟩
          exact ⟨q, by simp [hq], hqt⟩
        · rintro ⟨q, hq, hqt⟩
          rcases List.mem_cons.mp hq with rfl | hq'
          · exact absurd hqt hnp
          · exact ⟨q, hq', hqt⟩
    · intro y hy
      cases hm : matchYear p with
      | some y' =>
        have hy' : y' = y := by
          unfold extract_year_from_path at hy
          rw [List.findSome?_cons, hm] at hy
          injection hy
        subst hy'
        obtain ⟨hlo, hhi⟩ := matchYear_some_range hm
        exact ⟨[], p, rest, rfl, by simp, hm, hlo, hhi⟩
      | none =>
        have hyr : extract_year_from_path rest = some y := by
          unfold extract_year_from_path at hy ⊢
          rwa [List.findSome?_cons, hm] at hy
        obtain ⟨pre, q, suf, heq, hnone, hmq, hr⟩ := ih.2 y hyr
        refine ⟨p :: pre, q, suf, by rw [heq]; rfl, ?_, hmq, hr⟩
        intro q' hq'
        rcases List.mem_cons.mp hq' with rfl | hq''
        · intro ht
          have := (matchYear_isSome_iff q').mpr ht
          rw [hm] at this
          exact Bool.noConfusion this
        · exact hnone q' hq''

/-- The line-123 sort key comparison is transitive. -/
theorem keyLE_trans : ∀ a b c : DLRow, keyLE a b = true → keyLE b c = true → keyLE a c = true := by
  intro a b c hab hbc
  simp only [keyLE, Bool.or_eq_true, Bool.and_eq_true, decide_eq_true_eq] at *
  omega

/-- The line-123 sort key comparison is total. -/
theorem keyLE_total : ∀ a b : DLRow, (keyLE a b || keyLE b a) = true := by
  intro a b
  simp only [keyLE, Bool.or_eq_true, Bool.and_eq_true, decide_eq_true_eq]
  omega

/-- C7: over well-formed stored rows, the download stage processes exactly
the rows with a non-null non-empty link (excluding rows flagged duplicate
unless include-duplicates is set), in order of discovery year ascending with
ties in rowid (insertion) order, and emits a skip exactly for rows whose
destination file exists while the force flag is off. -/
theorem download_stage_contract
    (sha1hex : String → String) (fileExists : String → Bool) (out : String)
    (force include_duplicates : Bool) (db : List DLRow)
    (hwf : ∀ r ∈ db, WFRow r) :
    List.Perm ((mainPlan sha1hex fileExists out force include_duplicates db).map Prod.fst)
      (db.filter (specSelected include_duplicates)) ∧
    List.Pairwise yearRowLE
      ((mainPlan sha1hex fileExists out force include_duplicates db).map Prod.fst) ∧
    (∀ r act, (r, act) ∈ mainPlan sha1hex fileExists out force include_duplicates db →
      (act = DLAction.skip ↔
        (fileExists (destPathOf out sha1hex r) = true ∧ force = false))) := by
  have hmapfst : (mainPlan sha1hex fileExists out force include_duplicates db).map Prod.fst =
      (load_rows db include_duplicates).mergeSort keyLE := by
    unfold mainPlan
    rw [List.map_map]
    have hcomp : (Prod.fst ∘ fun r : DLRow =>
        (r, if fileExists (destPathOf out sha1hex r) && !force then DLAction.skip
            else DLAction.fetch)) = id := rfl
    rw [hcomp, List.map_id]
  have hperm : List.Perm ((load_rows db include_duplicates).mergeSort keyLE)
      (load_rows db include_duplicates) := List.mergeSort_perm _ _
  have hfilter : load_rows db include_duplicates = db.filter (specSelected include_duplicates) := by
    unfold load_rows specSelected
    cases include_duplicates
    · simp only [Bool.false_eq_true, if_false, Bool.false_or]
      apply List.filter_congr
      intro r hr
      obtain ⟨hdup, -⟩ := hwf r hr
      rcases hdup with h | h | h <;> simp [h]
    · simp only [if_true, Bool.true_or, Bool.and_true]
  have hmem_db : ∀ r, r ∈ (load_rows db include_duplicates).mergeSort keyLE → r ∈ db := by
    intro r hr
    have h1 : r ∈ load_rows db include_duplicates := (hperm.mem_iff).mp hr
    rw [hfilter] at h1
    exact (List.mem_filter.mp h1).1
  refine ⟨?_, ?_, ?_⟩
  · rw [hmapfst, ← hfilter]
    exact hperm
  · rw [hmapfst]
    have hsorted : List.Pairwise (fun a b => keyLE a b = true)
        ((load_rows db include_duplicates).mergeSort keyLE) :=
      List.sorted_mergeSort keyLE_trans keyLE_total _
    refine List.Pairwise.imp_of_mem ?_ hsorted
    intro a b ha hb hk
    obtain ⟨-, ya, hya, hya0, hya9⟩ := hwf a (hmem_db a ha)
    obtain ⟨-, yb, hyb, hyb0, hyb9⟩ := hwf b (hmem_db b hb)
    refine ⟨ya, yb, hya, hyb, ?_⟩
    simp only [keyLE, pySortKey, hya, hyb, Bool.or_eq_true, Bool.and_eq_true,
      decide_eq_true_eq] at hk
    rw [if_neg (by omega), if_neg (by omega)] at hk
    rcases hk with h | ⟨h1, h2⟩
    · exact Or.inl h
    · exact Or.inr ⟨h1, h2⟩
  · intro r act hmem
    unfold mainPlan at hmem
    obtain ⟨r', hr', heq⟩ := List.mem_map.mp hmem
    obtain ⟨rfl, rfl⟩ : r' = r ∧
        (if fileExists (destPathOf out sha1hex r') && !force then DLAction.skip
         else DLAction.fetch) = act := by
      exact ⟨congrArg Prod.fst heq, congrArg Prod.snd heq⟩
    cases hcond : fileExists (destPathOf out sha1hex r') && !force
    · simp only [Bool.false_eq_true, if_false]
      constructor
      · intro h
        exact DLAction.noConfusion h
      · rintro ⟨h1, h2⟩
        rw [h1, h2] at hcond
        simp at hcond
    · rw [if_pos rfl]
      constructor
      · intro _
        rw [Bool.and_eq_true, Bool.not_eq_true'] at hcond
        exact ⟨hcond.1, hcond.2⟩
      · intro _
        rfl

/-- C7 witness: the contract applied to a concrete one-row table. -/
theorem download_stage_contract_witness :
    List.Perm ((mainPlan (fun _ => "da39a3ee5e6b4b0d") (fun _ => false) "downloads" false false
        [⟨1, some "https://www.aclu.org/files/a.pdf", some "No", some 2013⟩]).map Prod.fst)
      (([⟨1, some "https://www.aclu.org/files/a.pdf", some "No", some 2013⟩] :
          List DLRow).filter (specSelected false)) ∧
    List.Pairwise yearRowLE
      ((mainPlan (fun _ => "da39a3ee5e6b4b0d") (fun _ => false) "downloads" false false
        [⟨1, some "https://www.aclu.org/files/a.pdf", some "No", some 2013⟩]).map Prod.fst) ∧
    (∀ r act, (r, act) ∈ mainPlan (fun _ => "da39a3ee5e6b4b0d") (fun _ => false) "downloads"
        false false [⟨1, some "https://www.aclu.org/files/a.pdf", some "No", some 2013⟩] →
      (act = DLAction.skip ↔
        ((fun _ => false) (destPathOf "downloads" (fun _ => "da39a3ee5e6b4b0d") r) = true ∧
          false = false))) :=
  download_stage_contract (fun _ => "da39a3ee5e6b4b0d") (fun _ => false) "downloads" false false
    [⟨1, some "https://www.aclu.org/files/a.pdf", some "No", some 2013⟩]
    (by
      intro r hr
      rw [List.mem_singleton] at hr
      subst hr
      exact ⟨Or.inr (Or.inl rfl), 2013, rfl, by decide, by decide⟩)
